import Mathlib

/-!
Verification development for the `rename_plugin.py` template-rename utility.

The program is shallowly embedded over `List Nat` (Unicode code points):
Python `str` values become `List Nat`, the filesystem becomes an explicit
association list from paths to contents plus a list of existing directories,
and a run of `main` becomes a pure function returning `Except PyErr RunResult`,
where `Except.error` models an uncaught Python exception (traceback, non-zero
exit) and `Except.ok` models a run that reaches the final success message
(exit code 0).

Character case mappings are modelled on the ASCII range, where Python's
`str.lower` / `str.upper` / `str.capitalize` agree with the ASCII mapping.
-/

deriving instance DecidableEq for Except

namespace RenamePlugin

/-- Code points of a Lean string literal; used to write Python strings. -/
def str (s : String) : List Nat := s.data.map Char.toNat

/-- Code point of the hyphen character. -/
def dashC : Nat := 45

/-- Code point of the underscore character. -/
def uscC : Nat := 95

/-- Code point of the forward slash character. -/
def slashC : Nat := 47

/-- ASCII model of Python `str.lower` applied to one code point. -/
def lowerChar (c : Nat) : Nat := if 65 ≤ c ∧ c ≤ 90 then c + 32 else c

/-- ASCII model of Python `str.upper` applied to one code point. -/
def upperChar (c : Nat) : Nat := if 97 ≤ c ∧ c ≤ 122 then c - 32 else c

/-- `leadsWith k s` holds when `k` is an initial segment of `s`
(the test Python's `str.replace` and `str.startswith` perform). -/
def leadsWith : List Nat → List Nat → Bool
  | [], _ => true
  | _ :: _, [] => false
  | a :: as, b :: bs => a == b && leadsWith as bs

/-- `containsSub k s` models Python's `k in s` substring test. -/
def containsSub (k : List Nat) : List Nat → Bool
  | [] => k.isEmpty
  | c :: rest => leadsWith k (c :: rest) || containsSub k rest

/-- Model of Python `s.endswith(sfx)`. -/
def endsWith (sfx s : List Nat) : Bool := leadsWith sfx.reverse s.reverse

/-- Model of `os.path.basename`: everything after the last slash. -/
def basename (p : List Nat) : List Nat :=
  (p.reverse.takeWhile (fun c => !(c == slashC))).reverse

/-- Fuelled worker for Python `str.replace`: leftmost, non-overlapping
replacement of `old` by `new`.  The fuel is an upper bound on the input
length; every call in this file supplies enough fuel. -/
def goReplace (old new : List Nat) : Nat → List Nat → List Nat
  | _, [] => []
  | 0, c :: rest => c :: rest
  | fuel + 1, c :: rest =>
    if leadsWith old (c :: rest) then
      new ++ goReplace old new fuel (rest.drop (old.length - 1))
    else
      c :: goReplace old new fuel rest

/-- Model of Python `s.replace(old, new)` (every caller in the program
passes a non-empty `old`). -/
def replaceAll (old new s : List Nat) : List Nat := goReplace old new s.length s

/-- Model of Python `s.split('_')`: splits at every underscore and keeps
empty segments, so the result is never empty. -/
def splitUnderscore : List Nat → List (List Nat)
  | [] => [[]]
  | c :: rest =>
    match splitUnderscore rest with
    | [] => [[]]
    | p :: ps => if c = uscC then [] :: p :: ps else (c :: p) :: ps

/-- ASCII model of Python `str.capitalize`: first character uppercased,
all remaining characters lowercased. -/
def pyCapitalize : List Nat → List Nat
  | [] => []
  | c :: rest => upperChar c :: rest.map lowerChar

/-- `to_snake_case` from the source: `name.replace('-', '_').lower()`. -/
def to_snake_case (name : List Nat) : List Nat :=
  (replaceAll [dashC] [uscC] name).map lowerChar

/-- `to_camel_case` from the source:
`''.join(word.capitalize() for word in name.replace('-', '_').split('_'))`. -/
def to_camel_case (name : List Nat) : List Nat :=
  List.flatten ((splitUnderscore (replaceAll [dashC] [uscC] name)).map pyCapitalize)

/-- Fuelled worker for `splitOnStr`; mirrors the scan of `goReplace`. -/
def goSplit (k : List Nat) : Nat → List Nat → List (List Nat)
  | _, [] => [[]]
  | 0, c :: rest => [c :: rest]
  | fuel + 1, c :: rest =>
    if leadsWith k (c :: rest) then
      [] :: goSplit k fuel (rest.drop (k.length - 1))
    else
      match goSplit k fuel rest with
      | [] => [[c]]
      | p :: ps => (c :: p) :: ps

/-- The segments of `s` between the leftmost non-overlapping occurrences of
`k` — exactly the pieces `replaceAll k v` keeps and joins with `v`. -/
def splitOnStr (k s : List Nat) : List (List Nat) := goSplit k s.length s

/-- Join a list of segments with a separator (no trailing separator). -/
def joinSep (sep : List Nat) : List (List Nat) → List Nat
  | [] => []
  | [x] => x
  | x :: y :: t => x ++ sep ++ joinSep sep (y :: t)

/-- One code point of the spec's "replace `-` with `_`" description. -/
def subDash (c : Nat) : Nat := if c = dashC then uscC else c

/-- Modelled from the spec's words for comparison with the source
derivation: split the identifier on both `-` and `_`, keeping empty
segments, as in "split on `-`/`_`, capitalize each segment". -/
def splitDashUnderscore : List Nat → List (List Nat)
  | [] => [[]]
  | c :: rest =>
    match splitDashUnderscore rest with
    | [] => [[]]
    | p :: ps => if c = dashC ∨ c = uscC then [] :: p :: ps else (c :: p) :: ps

/-- Uncaught Python exceptions that the embedded run can raise.  The
program's only `try/except` wraps the `subprocess.run` call, so any of
these aborts the run with a traceback and a non-zero exit code. -/
inductive PyErr where
  /-- `IsADirectoryError` from `Path.read_text` on an existing directory. -/
  | isADirectory
  /-- `shutil.Error` when the move's real destination already exists. -/
  | destExists
  /-- `OSError` / `shutil.Error` when a directory is moved into itself. -/
  | moveIntoItself
  /-- Failure of `shutil.move` when the destination is an existing file
  and the source is a directory. -/
  | notADirectory
deriving DecidableEq

/-- Filesystem state: existing directories and files with text contents.
Paths are relative, slash-separated strings of code points. -/
structure FS where
  dirs : List (List Nat)
  files : List (List Nat × List Nat)
deriving DecidableEq

/-- A path names an existing regular file. -/
def FS.isFile (fs : FS) (p : List Nat) : Bool :=
  fs.files.any (fun e => e.1 == p)

/-- Model of `Path.exists`: true for directories and files alike. -/
def FS.pathExists (fs : FS) (p : List Nat) : Bool :=
  fs.dirs.contains p || fs.isFile p

/-- Content of an existing file (model of `Path.read_text`; callers guard
with `isFile`, so the default is never observed along program paths). -/
def FS.read (fs : FS) (p : List Nat) : List Nat :=
  match fs.files.find? (fun e => e.1 == p) with
  | some e => e.2
  | none => []

/-- Model of `Path.write_text`: overwrite an existing file or create it. -/
def FS.write (fs : FS) (p c : List Nat) : FS :=
  ⟨fs.dirs,
   if fs.files.any (fun e => e.1 == p) then
     fs.files.map (fun e => if e.1 == p then (p, c) else e)
   else
     fs.files ++ [(p, c)]⟩

/-- Rename one path: the path itself moves to `dst`, and everything below
it (paths continuing with a slash) moves below `dst`. -/
def rewritePath (src dst p : List Nat) : List Nat :=
  if p = src then dst
  else if leadsWith (src ++ [slashC]) p then dst ++ p.drop src.length
  else p

/-- Effect of a successful `os.rename(src, dst)` on the filesystem. -/
def FS.renamePath (fs : FS) (src dst : List Nat) : FS :=
  ⟨fs.dirs.map (rewritePath src dst),
   fs.files.map (fun e => (rewritePath src dst e.1, e.2))⟩

/-- Model of `shutil.move(src, dst)` (CPython semantics):
if `dst` is an existing directory then a same-path move is a no-op,
otherwise the source moves inside `dst`, failing if that real destination
already exists or lies inside the source; if `dst` is an existing file
then renaming a directory onto it fails while a file overwrites it;
otherwise it is a plain rename. -/
def movePath (src dst : List Nat) (fs : FS) : Except PyErr FS :=
  if fs.dirs.contains dst then
    if src = dst then .ok fs
    else
      let real := dst ++ [slashC] ++ basename src
      if fs.pathExists real then .error .destExists
      else if leadsWith (src ++ [slashC]) real then .error .moveIntoItself
      else .ok (fs.renamePath src real)
  else if fs.isFile dst then
    if fs.dirs.contains src then .error .notADirectory
    else .ok (fs.renamePath src dst)
  else .ok (fs.renamePath src dst)

/-- Step 1 of `main`: rename `lua/myplugin` to `lua/<plugin_snake>` when the
source path exists, otherwise do nothing. -/
def step1 (plugin_snake : List Nat) (fs : FS) : Except PyErr FS :=
  let old_dir := str "lua/myplugin"
  let new_dir := str "lua/" ++ plugin_snake
  if fs.pathExists old_dir then movePath old_dir new_dir fs else .ok fs

/-- The replacement table of `main`, in Python dict insertion order. -/
def replacements (plugin_name username : List Nat) : List (List Nat × List Nat) :=
  [(str "myplugin", to_snake_case plugin_name),
   (str "MyPlugin", to_camel_case plugin_name),
   (str "your-username", username),
   (str "your-plugin-name", plugin_name),
   (str "YourPluginName", to_camel_case plugin_name)]

/-- Path of the `lazy.lua` target file. -/
def lazyPath : List Nat := str "lazy.lua"

/-- The hard-coded substring patched inside `lazy.lua` in step 4. -/
def templateRef : List Nat := str "/nvim-plugin-template"

/-- The hard-coded target file list of step 2. -/
def files_to_update (plugin_snake : List Nat) : List (List Nat) :=
  [str "lua/" ++ plugin_snake ++ str "/init.lua",
   str "lua/" ++ plugin_snake ++ str "/config.lua",
   str "lua/" ++ plugin_snake ++ str "/commands.lua",
   lazyPath,
   str "README.md"]

/-- One file's content after all replacement-table passes, in order. -/
def applyRepl (repl : List (List Nat × List Nat)) (c : List Nat) : List Nat :=
  repl.foldl (fun acc e => replaceAll e.1 e.2 acc) c

/-- Step 2 of `main`: for each target path, if it exists read it, apply all
replacements and write it back; reading an existing non-file raises. -/
def substFiles (repl : List (List Nat × List Nat)) :
    List (List Nat) → FS → Except PyErr FS
  | [], fs => .ok fs
  | p :: ps, fs =>
    if fs.isFile p then
      substFiles repl ps (fs.write p (applyRepl repl (fs.read p)))
    else if fs.pathExists p then .error .isADirectory
    else substFiles repl ps fs

/-- Observable outcome of steps 3 and 4. -/
structure GitFlags where
  /-- `subprocess.run` was executed. -/
  invoked : Bool
  /-- the warning `! Could not set git remote` was printed. -/
  warned : Bool
  /-- control reached the step-4 (lazy-spec patch) code. -/
  patchReached : Bool
  /-- `lazy.lua` was rewritten and its success line printed. -/
  patched : Bool
deriving DecidableEq

/-- Steps 3 and 4 of `main`.  `git_url` is the optional third CLI argument
(Python truthiness: `None` and the empty string both skip the block);
`gitOk` says whether the external `git remote set-url` call succeeds —
either way the `try/except` keeps the run alive. -/
def gitStep (git_url : Option (List Nat)) (gitOk : Bool) (fs : FS) :
    Except PyErr (FS × GitFlags) :=
  match git_url with
  | none => .ok (fs, ⟨false, false, false, false⟩)
  | some url =>
    if url.isEmpty then .ok (fs, ⟨false, false, false, false⟩)
    else
      let warned := !gitOk
      let repo_name := basename url
      if endsWith (str "nvim") repo_name then
        let repo_stripped := repo_name.take (repo_name.length - (str "nvim").length)
        if fs.isFile lazyPath then
          .ok (fs.write lazyPath
                 (replaceAll templateRef ([slashC] ++ repo_stripped) (fs.read lazyPath)),
               ⟨true, warned, true, true⟩)
        else if fs.pathExists lazyPath then .error .isADirectory
        else .ok (fs, ⟨true, warned, true, false⟩)
      else .ok (fs, ⟨true, warned, true, false⟩)

/-- Result of a completed run: final filesystem, the step-3/4 observables,
and `done` for the final success message (printed on every completed run). -/
structure RunResult where
  fs : FS
  gitInvoked : Bool
  warned : Bool
  patchReached : Bool
  patched : Bool
  done : Bool
deriving DecidableEq

/-- Steps 2–4 of `main`, starting from the filesystem left by step 1. -/
def afterStep1 (repl : List (List Nat × List Nat)) (targets : List (List Nat))
    (git_url : Option (List Nat)) (gitOk : Bool) (fs1 : FS) :
    Except PyErr RunResult :=
  match substFiles repl targets fs1 with
  | .error e => .error e
  | .ok fs2 =>
    match gitStep git_url gitOk fs2 with
    | .error e => .error e
    | .ok (fs3, fl) =>
      .ok ⟨fs3, fl.invoked, fl.warned, fl.patchReached, fl.patched, true⟩

/-- The whole `main` command: derive the name forms, rename the directory,
rewrite the target files, then optionally update the remote and patch the
lazy spec.  `Except.ok` is a run that ends at the final success message
(exit code 0); `Except.error` is an uncaught exception (non-zero exit). -/
def main (plugin_name username : List Nat) (git_url : Option (List Nat))
    (gitOk : Bool) (fs : FS) : Except PyErr RunResult :=
  match step1 (to_snake_case plugin_name) fs with
  | .error e => .error e
  | .ok fs1 =>
    afterStep1 (replacements plugin_name username)
      (files_to_update (to_snake_case plugin_name)) git_url gitOk fs1

lemma leadsWith_decomp : ∀ (k s : List Nat), leadsWith k s = true → s = k ++ s.drop k.length := by
  intro k
  induction k with
  | nil => intro s _; simp
  | cons a as ih =>
    intro s h
    cases s with
    | nil => simp [leadsWith] at h
    | cons b bs =>
      simp only [leadsWith, Bool.and_eq_true, beq_iff_eq] at h
      obtain ⟨hab, hlw⟩ := h
      subst hab
      simpa using ih bs hlw

lemma leadsWith_append : ∀ (k x t : List Nat), leadsWith k x = true → leadsWith k (x ++ t) = true := by
  intro k
  induction k with
  | nil => intro x t _; rfl
  | cons a as ih =>
    intro x t h
    cases x with
    | nil => simp [leadsWith] at h
    | cons b bs =>
      simp only [leadsWith, Bool.and_eq_true, beq_iff_eq] at h
      simp only [List.cons_append, leadsWith, Bool.and_eq_true, beq_iff_eq]
      exact ⟨h.1, ih bs t h.2⟩

lemma goSplit_ne_nil (k : List Nat) : ∀ (fuel : Nat) (s : List Nat), goSplit k fuel s ≠ [] := by
  intro fuel s
  cases fuel with
  | zero => cases s <;> simp [goSplit]
  | succ f =>
    cases s with
    | nil => simp [goSplit]
    | cons c rest =>
      simp only [goSplit]
      split
      · simp
      · split <;> simp

lemma goReplace_joinSep (k v : List Nat) :
    ∀ (fuel : Nat) (s : List Nat), s.length ≤ fuel →
      goReplace k v fuel s = joinSep v (goSplit k fuel s) := by
  intro fuel
  induction fuel with
  | zero =>
    intro s hs
    cases s with
    | nil => rfl
    | cons c rest => simp at hs
  | succ f ih =>
    intro s hs
    cases s with
    | nil => rfl
    | cons c rest =>
      by_cases hp : leadsWith k (c :: rest) = true
      · have hlen : (rest.drop (k.length - 1)).length ≤ f := by
          simp only [List.length_drop]
          simp only [List.length_cons] at hs
          omega
        have hrec := ih _ hlen
        cases hg : goSplit k f (rest.drop (k.length - 1)) with
        | nil => exact absurd hg (goSplit_ne_nil k f _)
        | cons p ps => simp [goReplace, goSplit, hp, hrec, hg, joinSep]
      · have hlen : rest.length ≤ f := by
          simp only [List.length_cons] at hs
          omega
        have hrec := ih rest hlen
        cases hg : goSplit k f rest with
        | nil => exact absurd hg (goSplit_ne_nil k f rest)
        | cons p ps =>
          cases ps with
          | nil => simp [goReplace, goSplit, hp, hrec, hg, joinSep]
          | cons q qs => simp [goReplace, goSplit, hp, hrec, hg, joinSep]

lemma joinSep_goSplit (k : List Nat) (hk : k ≠ []) :
    ∀ (fuel : Nat) (s : List Nat), s.length ≤ fuel →
      joinSep k (goSplit k fuel s) = s := by
  obtain ⟨d, ds, hdds⟩ : ∃ d ds, k = d :: ds := by
    cases k with
    | nil => exact absurd rfl hk
    | cons d ds => exact ⟨d, ds, rfl⟩
  subst hdds
  intro fuel
  induction fuel with
  | zero =>
    intro s hs
    cases s with
    | nil => rfl
    | cons c rest => simp at hs
  | succ f ih =>
    intro s hs
    cases s with
    | nil => rfl
    | cons c rest =>
      by_cases hp : leadsWith (d :: ds) (c :: rest) = true
      · have hlen : (rest.drop ((d :: ds).length - 1)).length ≤ f := by
          simp only [List.length_drop]
          simp only [List.length_cons] at hs
          omega
        have hrec := ih _ hlen
        have hdec := leadsWith_decomp (d :: ds) (c :: rest) hp
        cases hg : goSplit (d :: ds) f (rest.drop ((d :: ds).length - 1)) with
        | nil => exact absurd hg (goSplit_ne_nil (d :: ds) f _)
        | cons p ps =>
          rw [hg] at hrec
          simp only [goSplit, hp, if_true, hg, joinSep]
          simp only [List.length_cons, Nat.succ_sub_one] at hrec ⊢
          simp only [List.length_cons, List.drop_succ_cons] at hdec
          rw [hrec]
          simpa using hdec.symm
      · have hlen : rest.length ≤ f := by
          simp only [List.length_cons] at hs
          omega
        have hrec := ih rest hlen
        cases hg : goSplit (d :: ds) f rest with
        | nil => exact absurd hg (goSplit_ne_nil (d :: ds) f rest)
        | cons p ps =>
          rw [hg] at hrec
          cases ps with
          | nil =>
            simp only [joinSep] at hrec
            simp [goSplit, hp, hg, joinSep, hrec]
          | cons q qs =>
            simp [joinSep] at hrec
            simpa [goSplit, hp, hg, joinSep] using hrec

lemma goSplit_free (k : List Nat) (hk : k ≠ []) :
    ∀ (fuel : Nat) (s : List Nat), s.length ≤ fuel →
      ∀ p ∈ goSplit k fuel s, containsSub k p = false := by
  have hnilfree : containsSub k [] = false := by
    cases k with
    | nil => exact absurd rfl hk
    | cons d ds => simp [containsSub]
  intro fuel
  induction fuel with
  | zero =>
    intro s hs p hp
    cases s with
    | nil =>
      simp [goSplit] at hp
      subst hp
      exact hnilfree
    | cons c rest => simp at hs
  | succ f ih =>
    intro s hs p hp
    cases s with
    | nil =>
      simp [goSplit] at hp
      subst hp
      exact hnilfree
    | cons c rest =>
      cases hl : leadsWith k (c :: rest) with
      | true =>
        have hlen : (rest.drop (k.length - 1)).length ≤ f := by
          simp only [List.length_drop]
          simp only [List.length_cons] at hs
          omega
        simp [goSplit, hl] at hp
        rcases hp with hnew | hnew
        · subst hnew; exact hnilfree
        · exact ih _ hlen p hnew
      | false =>
        have hlen : rest.length ≤ f := by
          simp only [List.length_cons] at hs
          omega
        cases hg : goSplit k f rest with
        | nil => exact absurd hg (goSplit_ne_nil k f rest)
        | cons q qs =>
          simp [goSplit, hl, hg] at hp
          rcases hp with hnew | hnew
          · subst hnew
            have hqfree : containsSub k q = false :=
              ih rest hlen q (by rw [hg]; exact List.mem_cons_self q qs)
            have hlw : leadsWith k (c :: q) = false := by
              cases hval : leadsWith k (c :: q) with
              | false => rfl
              | true =>
                exfalso
                have hjoin := joinSep_goSplit k hk f rest hlen
                rw [hg] at hjoin
                cases qs with
                | nil =>
                  simp only [joinSep] at hjoin
                  rw [hjoin] at hval
                  rw [hval] at hl
                  cases hl
                | cons r rs =>
                  simp only [joinSep] at hjoin
                  have hext := leadsWith_append k (c :: q) (k ++ joinSep k (r :: rs)) hval
                  rw [List.cons_append] at hext
                  rw [show q ++ (k ++ joinSep k (r :: rs)) = rest by
                        rw [← hjoin]; simp [List.append_assoc]] at hext
                  rw [hext] at hl
                  cases hl
            simp [containsSub, hlw, hqfree]
          · exact ih rest hlen p (by rw [hg]; exact List.mem_cons_of_mem q hnew)

lemma goReplace_single (a b : Nat) :
    ∀ (fuel : Nat) (s : List Nat), s.length ≤ fuel →
      goReplace [a] [b] fuel s = s.map (fun c => if c = a then b else c) := by
  intro fuel
  induction fuel with
  | zero =>
    intro s hs
    cases s with
    | nil => rfl
    | cons c rest => simp at hs
  | succ f ih =>
    intro s hs
    cases s with
    | nil => rfl
    | cons c rest =>
      have hlen : rest.length ≤ f := by
        simp only [List.length_cons] at hs
        omega
      by_cases hac : a = c
      · subst hac
        simp [goReplace, leadsWith, ih rest hlen]
      · simp [goReplace, leadsWith, hac, ih rest hlen, Ne.symm hac]

lemma replaceAll_dash (s : List Nat) : replaceAll [dashC] [uscC] s = s.map subDash := by
  have h := goReplace_single dashC uscC s.length s le_rfl
  simpa [replaceAll, subDash] using h

lemma splitUnderscore_map_subDash :
    ∀ s : List Nat, splitUnderscore (s.map subDash) = splitDashUnderscore s := by
  intro s
  induction s with
  | nil => rfl
  | cons c rest ih =>
    simp only [List.map_cons, splitUnderscore, splitDashUnderscore, ih]
    cases hq : splitDashUnderscore rest with
    | nil => rfl
    | cons p ps =>
      by_cases hd : c = dashC
      · subst hd
        simp [subDash, dashC, uscC]
      · by_cases hu : c = uscC
        · subst hu
          simp [subDash, dashC, uscC]
        · simp [subDash, hd, hu]

lemma getD_map_lowerChar : ∀ (l : List Nat) (i : Nat), i < l.length →
    (l.map lowerChar).getD i 0 = lowerChar (l.getD i 0) := by
  intro l
  induction l with
  | nil => intro i hi; simp at hi
  | cons c cs ih =>
    intro i hi
    cases i with
    | zero => simp [List.getD]
    | succ j =>
      simp only [List.map_cons, List.getD_cons_succ]
      exact ih j (by simpa using hi)

lemma lowerSub_invol (c : Nat) :
    lowerChar (subDash (lowerChar (subDash c))) = lowerChar (subDash c) := by
  simp only [lowerChar, subDash, dashC, uscC]
  split_ifs <;> omega

/-- Claim C3: the snake form is the input with every hyphen replaced by an
underscore and then every character lowercased, and the capitalized form is
the concatenation of the per-segment capitalizations of the input split on
both hyphen and underscore; on `"my-plugin"` they give `"my_plugin"` and
`"MyPlugin"`. -/
theorem C3_name_forms (name : List Nat) :
    to_snake_case name = (name.map subDash).map lowerChar ∧
    to_camel_case name = List.flatten ((splitDashUnderscore name).map pyCapitalize) ∧
    to_snake_case (str "my-plugin") = str "my_plugin" ∧
    to_camel_case (str "my-plugin") = str "MyPlugin" := by
  refine ⟨?_, ?_, by decide, by decide⟩
  · unfold to_snake_case
    rw [replaceAll_dash]
  · unfold to_camel_case
    rw [replaceAll_dash, splitUnderscore_map_subDash]

/-- Claim C9: in each hyphen/underscore segment, every character after the
first is lowercased by the capitalization, so interior uppercase letters are
not preserved: `"myABC-plugin"` capitalizes to `"MyabcPlugin"`, not
`"MyABCPlugin"`. -/
theorem C9_capitalize_lowers_rest :
    (∀ (name w : List Nat),
      w ∈ splitUnderscore (replaceAll [dashC] [uscC] name) →
      ∀ i : Nat, i + 1 < w.length →
        (pyCapitalize w).getD (i + 1) 0 = lowerChar (w.getD (i + 1) 0)) ∧
    to_camel_case (str "myABC-plugin") = str "MyabcPlugin" ∧
    to_camel_case (str "myABC-plugin") ≠ str "MyABCPlugin" := by
  refine ⟨?_, by decide, by decide⟩
  intro name w _hw i hi
  cases w with
  | nil => simp at hi
  | cons c rest =>
    simp only [pyCapitalize, List.getD_cons_succ]
    exact getD_map_lowerChar rest i (by simpa using hi)

/-- Witness for C9 at the segment `"myABC"` of `"myABC-plugin"`. -/
theorem C9_capitalize_lowers_rest_witness :
    (str "myABC") ∈ splitUnderscore (replaceAll [dashC] [uscC] (str "myABC-plugin")) ∧
    0 + 1 < (str "myABC").length ∧
    (pyCapitalize (str "myABC")).getD (0 + 1) 0 = lowerChar ((str "myABC").getD (0 + 1) 0) :=
  ⟨by decide, by decide,
   C9_capitalize_lowers_rest.1 (str "myABC-plugin") (str "myABC") (by decide) 0 (by decide)⟩

/-- Claim C10: the snake-form derivation is idempotent. -/
theorem C10_snake_idem (s : List Nat) :
    to_snake_case (to_snake_case s) = to_snake_case s := by
  have hform : ∀ t : List Nat, to_snake_case t = t.map (fun c => lowerChar (subDash c)) := by
    intro t
    unfold to_snake_case
    rw [replaceAll_dash, List.map_map]
    rfl
  rw [hform, hform, List.map_map]
  induction s with
  | nil => rfl
  | cons c cs ih =>
    simp only [List.map_cons, Function.comp, lowerSub_invol, ih]

lemma splitOnStr_decomp (k v s : List Nat) (hk : k ≠ []) :
    replaceAll k v s = joinSep v (splitOnStr k s) ∧
    joinSep k (splitOnStr k s) = s ∧
    ∀ part ∈ splitOnStr k s, containsSub k part = false :=
  ⟨goReplace_joinSep k v s.length s le_rfl,
   joinSep_goSplit k hk s.length s le_rfl,
   goSplit_free k hk s.length s le_rfl⟩

lemma isFile_false_of_pathExists_false (fs : FS) (p : List Nat)
    (h : fs.pathExists p = false) : fs.isFile p = false := by
  simp only [FS.pathExists, Bool.or_eq_false_iff] at h
  exact h.2

lemma contains_false_of_pathExists_false (fs : FS) (p : List Nat)
    (h : fs.pathExists p = false) : fs.dirs.contains p = false := by
  simp only [FS.pathExists, Bool.or_eq_false_iff] at h
  exact h.1

lemma substFiles_ok (repl : List (List Nat × List Nat)) :
    ∀ (ps : List (List Nat)) (fs : FS),
      (∀ pth ∈ ps, fs.dirs.contains pth = false) →
      ∃ fs2, substFiles repl ps fs = .ok fs2 ∧ fs2.dirs = fs.dirs := by
  intro ps
  induction ps with
  | nil => intro fs _; exact ⟨fs, rfl, rfl⟩
  | cons p ps ih =>
    intro fs h
    cases hf : fs.isFile p with
    | true =>
      obtain ⟨fs2, hok, hd⟩ := ih (fs.write p (applyRepl repl (fs.read p)))
        (by intro q hq; simpa [FS.write] using h q (List.mem_cons_of_mem p hq))
      refine ⟨fs2, ?_, ?_⟩
      · simp [substFiles, hf, hok]
      · rw [hd]; rfl
    | false =>
      have hc : fs.dirs.contains p = false := h p (List.mem_cons_self p ps)
      have hpe : fs.pathExists p = false := by
        simp only [FS.pathExists, hc, hf, Bool.or_self]
      obtain ⟨fs2, hok, hd⟩ := ih fs (fun q hq => h q (List.mem_cons_of_mem p hq))
      exact ⟨fs2, by simp [substFiles, hf, hpe, hok], hd⟩

lemma gitStep_ok (url? : Option (List Nat)) (gOk : Bool) (fs : FS)
    (hlz : fs.dirs.contains lazyPath = false) :
    ∃ out, gitStep url? gOk fs = .ok out := by
  cases url? with
  | none => exact ⟨(fs, ⟨false, false, false, false⟩), rfl⟩
  | some url =>
    cases he : url.isEmpty with
    | true =>
      refine ⟨(fs, ⟨false, false, false, false⟩), ?_⟩
      simp [gitStep, he]
    | false =>
      cases hsuf : endsWith (str "nvim") (basename url) with
      | false =>
        refine ⟨(fs, ⟨true, !gOk, true, false⟩), ?_⟩
        simp [gitStep, he, hsuf]
      | true =>
        cases hf : fs.isFile lazyPath with
        | true =>
          refine ⟨(fs.write lazyPath
              (replaceAll templateRef
                ([slashC] ++ (basename url).take ((basename url).length - (str "nvim").length))
                (fs.read lazyPath)),
            ⟨true, !gOk, true, true⟩), ?_⟩
          simp [gitStep, he, hsuf, hf]
        | false =>
          have hpe : fs.pathExists lazyPath = false := by
            simp only [FS.pathExists, hlz, hf, Bool.or_self]
          refine ⟨(fs, ⟨true, !gOk, true, false⟩), ?_⟩
          simp [gitStep, he, hsuf, hf, hpe]

lemma lazyPath_mem_files_to_update (sn : List Nat) :
    lazyPath ∈ files_to_update sn := by
  simp [files_to_update]

/-- Claim C1 (code bug): with URL `https://github.com/alice/foo.nvim` and a
`lazy.lua` containing `/nvim-plugin-template`, the run rewrites the
reference to `/foo.` — the slice drops only the four characters `nvim`,
keeping the dot, although the code's own comment says it removes the
`.nvim` suffix and the claim expects `/foo`. -/
theorem C1_lazy_patch_keeps_dot :
    (main (str "my-plugin") (str "alice")
        (some (str "https://github.com/alice/foo.nvim")) true
        ⟨[], [(lazyPath, str "repo /nvim-plugin-template here")]⟩).toOption.map
      (fun r => r.fs.read lazyPath) = some (str "repo /foo. here") ∧
    str "repo /foo. here" ≠ str "repo /foo here" := by
  constructor
  · decide
  · decide

/-- Claim C2 counterexample: with plugin name `xmyplugin` the table maps the
placeholder `myplugin` to `xmyplugin`, which still contains the placeholder,
so a `README.md` that consisted of the placeholder still contains it after
the substitution step — the occurrence count is not zero. -/
theorem C2_placeholder_can_survive :
    containsSub (str "myplugin") (str "myplugin") = true ∧
    (main (str "xmyplugin") (str "bob") none true
        ⟨[], [(str "README.md", str "myplugin")]⟩).toOption.map
      (fun r => containsSub (str "myplugin") (r.fs.read (str "README.md"))) =
      some true := by
  constructor
  · decide
  · decide

/-- Claim C2 (amended): each replacement pass rewrites the text to its
placeholder-free segments joined by the replacement value — the segments
joined by the placeholder give back the original text, so every original
occurrence is replaced; the table's placeholder keys are all non-empty, so
this applies to every pass of the substitution step.  Zero remaining
occurrences (and the exact replacement count) follow only when neither the
values nor the re-joined boundaries reintroduce a placeholder, which the
program does not enforce. -/
theorem C2_replace_pass_structure (k v s : List Nat) (hk : k ≠ []) :
    (replaceAll k v s = joinSep v (splitOnStr k s) ∧
     joinSep k (splitOnStr k s) = s ∧
     ∀ part ∈ splitOnStr k s, containsSub k part = false) ∧
    ∀ (pn un : List Nat), ∀ e ∈ replacements pn un, e.1 ≠ [] := by
  refine ⟨splitOnStr_decomp k v s hk, ?_⟩
  intro pn un e he
  simp only [replacements, List.mem_cons, List.not_mem_nil, or_false] at he
  rcases he with rfl | rfl | rfl | rfl | rfl
  · show str "myplugin" ≠ []
    decide
  · show str "MyPlugin" ≠ []
    decide
  · show str "your-username" ≠ []
    decide
  · show str "your-plugin-name" ≠ []
    decide
  · show str "YourPluginName" ≠ []
    decide

/-- Witness for the amended C2 at a concrete pass. -/
theorem C2_replace_pass_structure_witness :
    str "ab" ≠ [] ∧
    ((replaceAll (str "ab") (str "XY") (str "zababz") =
        joinSep (str "XY") (splitOnStr (str "ab") (str "zababz")) ∧
      joinSep (str "ab") (splitOnStr (str "ab") (str "zababz")) = str "zababz" ∧
      ∀ part ∈ splitOnStr (str "ab") (str "zababz"),
        containsSub (str "ab") part = false) ∧
     ∀ (pn un : List Nat), ∀ e ∈ replacements pn un, e.1 ≠ []) :=
  ⟨by decide, C2_replace_pass_structure (str "ab") (str "XY") (str "zababz") (by decide)⟩

/-- Claim C4 counterexample: with a directory named `lazy.lua`, the
substitution step's `Path.exists` guard passes but `read_text` raises
`IsADirectoryError`, which nothing catches — the run aborts with a
non-zero exit instead of degrading to a warning or skip. -/
theorem C4_can_exit_nonzero :
    main (str "my-plugin") (str "alice") none true ⟨[str "lazy.lua"], []⟩ =
      .error .isADirectory := by
  decide

/-- Claim C4 (amended): the program exits 0 on every run in which the
directory rename succeeds and no hard-coded target path names a directory;
missing files and directories are skipped and an external git failure is
only a warning — but OS-level exceptions such as reading a directory are
uncaught and abort the run with a non-zero exit. -/
theorem C4_exit_zero_when_fs_benign (p u : List Nat) (url? : Option (List Nat))
    (gOk : Bool) (fs fs1 : FS)
    (h1 : step1 (to_snake_case p) fs = .ok fs1)
    (h2 : ∀ pth ∈ files_to_update (to_snake_case p), fs1.dirs.contains pth = false) :
    ∃ r, main p u url? gOk fs = .ok r ∧ r.done = true := by
  obtain ⟨fs2, hok, hd⟩ :=
    substFiles_ok (replacements p u) (files_to_update (to_snake_case p)) fs1 h2
  have hlz : fs2.dirs.contains lazyPath = false := by
    rw [hd]
    exact h2 lazyPath (lazyPath_mem_files_to_update (to_snake_case p))
  obtain ⟨⟨fs3, fl⟩, hg⟩ := gitStep_ok url? gOk fs2 hlz
  refine ⟨⟨fs3, fl.invoked, fl.warned, fl.patchReached, fl.patched, true⟩, ?_, rfl⟩
  simp [main, afterStep1, h1, hok, hg]

/-- Witness for the amended C4 on a full template filesystem. -/
theorem C4_exit_zero_when_fs_benign_witness :
    step1 (to_snake_case (str "my-plugin"))
        ⟨[str "lua/myplugin"],
         [(str "lua/myplugin/init.lua", str "require myplugin"),
          (str "lazy.lua", str "url /nvim-plugin-template"),
          (str "README.md", str "MyPlugin docs")]⟩ =
      .ok ⟨[str "lua/my_plugin"],
           [(str "lua/my_plugin/init.lua", str "require myplugin"),
            (str "lazy.lua", str "url /nvim-plugin-template"),
            (str "README.md", str "MyPlugin docs")]⟩ ∧
    (∀ pth ∈ files_to_update (to_snake_case (str "my-plugin")),
      (FS.mk [str "lua/my_plugin"]
        [(str "lua/my_plugin/init.lua", str "require myplugin"),
         (str "lazy.lua", str "url /nvim-plugin-template"),
         (str "README.md", str "MyPlugin docs")]).dirs.contains pth = false) ∧
    ∃ r, main (str "my-plugin") (str "alice")
        (some (str "https://github.com/alice/foo.nvim")) true
        ⟨[str "lua/myplugin"],
         [(str "lua/myplugin/init.lua", str "require myplugin"),
          (str "lazy.lua", str "url /nvim-plugin-template"),
          (str "README.md", str "MyPlugin docs")]⟩ = .ok r ∧ r.done = true :=
  ⟨by decide, by decide,
   C4_exit_zero_when_fs_benign (str "my-plugin") (str "alice")
     (some (str "https://github.com/alice/foo.nvim")) true
     ⟨[str "lua/myplugin"],
      [(str "lua/myplugin/init.lua", str "require myplugin"),
       (str "lazy.lua", str "url /nvim-plugin-template"),
       (str "README.md", str "MyPlugin docs")]⟩
     ⟨[str "lua/my_plugin"],
      [(str "lua/my_plugin/init.lua", str "require myplugin"),
       (str "lazy.lua", str "url /nvim-plugin-template"),
       (str "README.md", str "MyPlugin docs")]⟩
     (by decide) (by decide)⟩

/-- Claim C5: when a repository URL is supplied and the external git call
fails, the failure is caught and reported as a warning, the run is not
aborted, and the step-4 patch code and the completion message still execute
(given that the earlier steps completed and `lazy.lua` is not a directory). -/
theorem C5_git_failure_nonfatal (p u url : List Nat) (fs fs1 fs2 : FS)
    (hurl : url ≠ [])
    (h1 : step1 (to_snake_case p) fs = .ok fs1)
    (h2 : substFiles (replacements p u) (files_to_update (to_snake_case p)) fs1 = .ok fs2)
    (hlz : fs2.dirs.contains lazyPath = false) :
    ∃ r, main p u (some url) false fs = .ok r ∧
      r.warned = true ∧ r.patchReached = true ∧ r.done = true := by
  have he : url.isEmpty = false := by
    cases url with
    | nil => exact absurd rfl hurl
    | cons a as => rfl
  cases hsuf : endsWith (str "nvim") (basename url) with
  | true =>
    cases hf : fs2.isFile lazyPath with
    | true =>
      refine ⟨⟨fs2.write lazyPath
          (replaceAll templateRef
            ([slashC] ++ (basename url).take ((basename url).length - (str "nvim").length))
            (fs2.read lazyPath)),
        true, true, true, true, true⟩, ?_, rfl, rfl, rfl⟩
      simp [main, afterStep1, h1, h2, gitStep, he, hsuf, hf]
    | false =>
      have hpe : fs2.pathExists lazyPath = false := by
        simp only [FS.pathExists, hlz, hf, Bool.or_self]
      refine ⟨⟨fs2, true, true, true, false, true⟩, ?_, rfl, rfl, rfl⟩
      simp [main, afterStep1, h1, h2, gitStep, he, hsuf, hf, hpe]
  | false =>
    refine ⟨⟨fs2, true, true, true, false, true⟩, ?_, rfl, rfl, rfl⟩
    simp [main, afterStep1, h1, h2, gitStep, he, hsuf]

/-- Witness for C5 on an empty filesystem. -/
theorem C5_git_failure_nonfatal_witness :
    str "repos/foo.nvim" ≠ [] ∧
    step1 (to_snake_case (str "my-plugin")) ⟨[], []⟩ = .ok ⟨[], []⟩ ∧
    substFiles (replacements (str "my-plugin") (str "alice"))
      (files_to_update (to_snake_case (str "my-plugin"))) ⟨[], []⟩ = .ok ⟨[], []⟩ ∧
    (FS.mk [] []).dirs.contains lazyPath = false ∧
    ∃ r, main (str "my-plugin") (str "alice") (some (str "repos/foo.nvim")) false ⟨[], []⟩ =
        .ok r ∧ r.warned = true ∧ r.patchReached = true ∧ r.done = true :=
  ⟨by decide, by decide, by decide, by decide,
   C5_git_failure_nonfatal (str "my-plugin") (str "alice") (str "repos/foo.nvim")
     ⟨[], []⟩ ⟨[], []⟩ ⟨[], []⟩ (by decide) (by decide) (by decide) (by decide)⟩

/-- Claim C6: when `lua/myplugin` is absent the rename step returns the
filesystem unchanged and the run proceeds to the substitution step, and a
target path that does not exist is silently skipped while the remaining
target files are still processed. -/
theorem C6_missing_paths_skipped :
    (∀ (sn : List Nat) (fs : FS), fs.pathExists (str "lua/myplugin") = false →
      step1 sn fs = .ok fs) ∧
    (∀ (p u : List Nat) (url? : Option (List Nat)) (gOk : Bool) (fs : FS),
      fs.pathExists (str "lua/myplugin") = false →
      main p u url? gOk fs =
        afterStep1 (replacements p u) (files_to_update (to_snake_case p)) url? gOk fs) ∧
    (∀ (repl : List (List Nat × List Nat)) (pth : List Nat) (ps : List (List Nat)) (fs : FS),
      fs.pathExists pth = false →
      substFiles repl (pth :: ps) fs = substFiles repl ps fs) := by
  refine ⟨?_, ?_, ?_⟩
  · intro sn fs h
    simp [step1, h]
  · intro p u url? gOk fs h
    simp [main, step1, h]
  · intro repl pth ps fs h
    have hf : fs.isFile pth = false := isFile_false_of_pathExists_false fs pth h
    simp [substFiles, hf, h]

/-- Witness for C6 on an empty filesystem. -/
theorem C6_missing_paths_skipped_witness :
    (FS.mk [] []).pathExists (str "lua/myplugin") = false ∧
    step1 (str "sn") ⟨[], []⟩ = .ok ⟨[], []⟩ ∧
    main (str "a") (str "b") none true ⟨[], []⟩ =
      afterStep1 (replacements (str "a") (str "b"))
        (files_to_update (to_snake_case (str "a"))) none true ⟨[], []⟩ ∧
    substFiles [] [str "x"] ⟨[], []⟩ = substFiles [] [] ⟨[], []⟩ :=
  ⟨by decide,
   C6_missing_paths_skipped.1 (str "sn") ⟨[], []⟩ (by decide),
   C6_missing_paths_skipped.2.1 (str "a") (str "b") none true ⟨[], []⟩ (by decide),
   C6_missing_paths_skipped.2.2 [] (str "x") [] ⟨[], []⟩ (by decide)⟩

/-- Claim C7: with no repository URL, steps 3 and 4 run no external process,
never reach the patch code, and leave the filesystem exactly as the
substitution step left it, so `lazy.lua` (and its `/nvim-plugin-template`
substring) is untouched by those steps. -/
theorem C7_no_url_skips_git :
    (∀ (gOk : Bool) (fs : FS),
      gitStep none gOk fs = .ok (fs, ⟨false, false, false, false⟩)) ∧
    (∀ (p u : List Nat) (gOk : Bool) (fs : FS) (r : RunResult),
      main p u none gOk fs = .ok r →
      r.gitInvoked = false ∧ r.patchReached = false ∧ r.patched = false ∧
      ∃ fs1, step1 (to_snake_case p) fs = .ok fs1 ∧
        substFiles (replacements p u) (files_to_update (to_snake_case p)) fs1 =
          .ok r.fs) := by
  refine ⟨fun gOk fs => rfl, ?_⟩
  intro p u gOk fs r hm
  cases hst : step1 (to_snake_case p) fs with
  | error e => simp [main, hst] at hm
  | ok fs1 =>
    cases hsb : substFiles (replacements p u) (files_to_update (to_snake_case p)) fs1 with
    | error e => simp [main, afterStep1, hst, hsb] at hm
    | ok fs2 =>
      simp only [main, afterStep1, hst, hsb, gitStep, Except.ok.injEq] at hm
      subst hm
      exact ⟨rfl, rfl, rfl, fs1, rfl, hsb⟩

/-- Witness for C7 on an empty filesystem. -/
theorem C7_no_url_skips_git_witness :
    main (str "a") (str "b") none true ⟨[], []⟩ =
      .ok ⟨⟨[], []⟩, false, false, false, false, true⟩ ∧
    ((RunResult.mk ⟨[], []⟩ false false false false true).gitInvoked = false ∧
     (RunResult.mk ⟨[], []⟩ false false false false true).patchReached = false ∧
     (RunResult.mk ⟨[], []⟩ false false false false true).patched = false ∧
     ∃ fs1, step1 (to_snake_case (str "a")) ⟨[], []⟩ = .ok fs1 ∧
       substFiles (replacements (str "a") (str "b"))
         (files_to_update (to_snake_case (str "a"))) fs1 =
         .ok (RunResult.mk ⟨[], []⟩ false false false false true).fs) :=
  ⟨by decide,
   C7_no_url_skips_git.2 (str "a") (str "b") true ⟨[], []⟩
     ⟨⟨[], []⟩, false, false, false, false, true⟩ (by decide)⟩

/-- Claim C8: with a (non-empty) repository URL supplied, the step-4 patch
is a silent no-op that leaves the filesystem unchanged whenever the URL's
final path segment does not end in `nvim` or `lazy.lua` does not exist. -/
theorem C8_patch_noop (url : List Nat) (gOk : Bool) (fs : FS)
    (hurl : url ≠ [])
    (h : endsWith (str "nvim") (basename url) = false ∨ fs.pathExists lazyPath = false) :
    gitStep (some url) gOk fs = .ok (fs, ⟨true, !gOk, true, false⟩) := by
  have he : url.isEmpty = false := by
    cases url with
    | nil => exact absurd rfl hurl
    | cons a as => rfl
  rcases h with h | h
  · simp [gitStep, he, h]
  · have hf : fs.isFile lazyPath = false := isFile_false_of_pathExists_false fs lazyPath h
    cases hsuf : endsWith (str "nvim") (basename url) with
    | true => simp [gitStep, he, hsuf, hf, h]
    | false => simp [gitStep, he, hsuf]

/-- Witness for C8 with a URL whose repository name lacks the suffix. -/
theorem C8_patch_noop_witness :
    str "https://github.com/alice/foo" ≠ [] ∧
    (endsWith (str "nvim") (basename (str "https://github.com/alice/foo")) = false ∨
      (FS.mk [] [(lazyPath, str "x")]).pathExists lazyPath = false) ∧
    gitStep (some (str "https://github.com/alice/foo")) true ⟨[], [(lazyPath, str "x")]⟩ =
      .ok (⟨[], [(lazyPath, str "x")]⟩, ⟨true, false, true, false⟩) :=
  ⟨by decide, Or.inl (by decide),
   C8_patch_noop (str "https://github.com/alice/foo") true ⟨[], [(lazyPath, str "x")]⟩
     (by decide) (Or.inl (by decide))⟩

end RenamePlugin

